import Mathlib

/-!
Verification of the TextLingo chunked-transcription pipeline
(`textlingo-desktop/src-tauri/src/subtitle_extraction.rs`, with the JSON
repair helper from `src/ai_service.rs`).

Shallow embedding conventions:
* Rust `f64` time values are modelled as `ℚ` (the pipeline only adds,
  subtracts, compares and divides timestamps; no float-specific behaviour
  is relied on by the properties considered here).
* Rust `String`/`&str` values are modelled as `List Char` (`Str` below);
  Rust byte indices returned by `find`/`rfind` are modelled as character
  indices, which induce the same substring slices.
* `serde_json` (an external library) is modelled by an executable strict
  JSON parser (`parseJson`), and `str::parse::<f64>` by a decimal-number
  parser (`parseF64`).
-/

/-- Rust strings are modelled as lists of characters. -/
abbrev Str := List Char

/-- Whitespace test used to model Rust `str::trim` / `char::is_whitespace`
(ASCII fragment, which is all the pipeline's inputs use). -/
def isWs (c : Char) : Bool :=
  c = ' ' || c = '\t' || c = '\n' || c = '\r'

/-- Model of Rust `str::trim`: drop whitespace from both ends. -/
def trimStr (s : Str) : Str :=
  ((s.dropWhile isWs).reverse.dropWhile isWs).reverse

/-- Embeds `types.rs`: `struct TranscriptionSegment`. -/
structure TranscriptionSegment where
  speaker : Option Str
  content : Str
  start_time : Option ℚ
  end_time : Option ℚ
deriving DecidableEq

/-- Embeds `types.rs`: `struct TranscriptionResult`. -/
structure TranscriptionResult where
  segments : List TranscriptionSegment
  full_text : Str
deriving DecidableEq

/-- Length of a longest common subsequence of two character lists.  This is
the quantity the rolling-array dynamic program inside `text_similarity`
(`subtitle_extraction.rs`) computes. -/
def lcsLen : List Char → List Char → ℕ
  | [], _ => 0
  | _ :: _, [] => 0
  | a :: as, b :: bs =>
    if a = b then lcsLen as bs + 1
    else max (lcsLen (a :: as) bs) (lcsLen as (b :: bs))
termination_by a b => a.length + b.length

/-- Embeds `subtitle_extraction.rs`: `fn text_similarity` (LCS length over
the longer trimmed string, with the early-exit cases for empty and equal
strings). -/
def text_similarity (a b : Str) : ℚ :=
  let a := trimStr a
  let b := trimStr b
  if a.isEmpty && b.isEmpty then 1
  else if a.isEmpty || b.isEmpty then 0
  else if a = b then 1
  else (lcsLen a b : ℚ) / (max a.length b.length : ℚ)

/-- Start time with the `unwrap_or(0.0)` default used throughout
`deduplicate_segments`. -/
def segStart (s : TranscriptionSegment) : ℚ :=
  s.start_time.getD 0

/-- End time with the `unwrap_or(start)` default used in
`deduplicate_segments`. -/
def segEnd (s : TranscriptionSegment) : ℚ :=
  s.end_time.getD (segStart s)

/-- Temporal-overlap ratio of a candidate `seg` against an `existing`
segment, exactly as computed inside `deduplicate_segments`: overlap
duration divided by the candidate's duration (clamped below by 0.1). -/
def overlapRatio (seg existing : TranscriptionSegment) : ℚ :=
  let seg_start := segStart seg
  let ex_start := segStart existing
  let seg_end := segEnd seg
  let ex_end := segEnd existing
  let overlap_start := max seg_start ex_start
  let overlap_end := min seg_end ex_end
  let overlap_duration := max (overlap_end - overlap_start) 0
  let seg_duration := max (seg_end - seg_start) (1/10)
  overlap_duration / seg_duration

/-- Embeds the duplicate test from the closure inside
`deduplicate_segments`: the 15-second fast exclusion, then condition 1
(overlap ratio > 0.3 and similarity > 0.6) or condition 2 (start-time
delta < 5 s and similarity > 0.5). -/
def isDupPair (seg existing : TranscriptionSegment) : Bool :=
  let seg_start := segStart seg
  let ex_start := segStart existing
  if |seg_start - ex_start| > 15 then false
  else
    decide (overlapRatio seg existing > 3/10 ∧
      text_similarity seg.content existing.content > 6/10) ||
    decide (|seg_start - ex_start| < 5 ∧
      text_similarity seg.content existing.content > 5/10)

/-- Loop of `deduplicate_segments`: walk the input, keeping a segment only
if it is not a duplicate of some already-kept segment. -/
def dedupGo : List TranscriptionSegment → List TranscriptionSegment →
    List TranscriptionSegment
  | [], result => result
  | seg :: rest, result =>
    if result.any (fun existing => isDupPair seg existing) then
      dedupGo rest result
    else
      dedupGo rest (result ++ [seg])

/-- Embeds `subtitle_extraction.rs`: `fn deduplicate_segments` (the empty
input short-circuit in the source is subsumed by the loop). -/
def deduplicate_segments (segments : List TranscriptionSegment) :
    List TranscriptionSegment :=
  dedupGo segments []

/-- Relation maintained between an earlier-accepted and a later-accepted
segment of the dedup output. -/
def notDupOf (a b : TranscriptionSegment) : Prop :=
  isDupPair b a = false

lemma dedupGo_pairwise (rest result : List TranscriptionSegment)
    (h : result.Pairwise notDupOf) :
    (dedupGo rest result).Pairwise notDupOf := by
  induction rest generalizing result with
  | nil => simpa [dedupGo] using h
  | cons seg rest ih =>
    rw [dedupGo]
    by_cases hdup : result.any (fun existing => isDupPair seg existing)
    · simpa [hdup] using ih result h
    · rw [if_neg hdup]
      refine ih _ ?_
      rw [List.pairwise_append]
      refine ⟨h, by simp, ?_⟩
      intro a ha b hb
      simp only [List.mem_singleton] at hb
      subst hb
      simp only [List.any_eq_true, not_exists, not_and] at hdup
      have := hdup a ha
      simp only [notDupOf]
      simpa using this

lemma deduplicate_segments_pairwise (xs : List TranscriptionSegment) :
    (deduplicate_segments xs).Pairwise notDupOf :=
  dedupGo_pairwise xs [] (by simp)

lemma dedupGo_sublist (rest result : List TranscriptionSegment) :
    ∃ l, dedupGo rest result = result ++ l ∧ l.Sublist rest := by
  induction rest generalizing result with
  | nil => exact ⟨[], by simp [dedupGo]⟩
  | cons seg rest ih =>
    rw [dedupGo]
    by_cases hdup : result.any (fun existing => isDupPair seg existing)
    · rw [if_pos hdup]
      obtain ⟨l, hl, hsub⟩ := ih result
      exact ⟨l, hl, hsub.cons _⟩
    · rw [if_neg hdup]
      obtain ⟨l, hl, hsub⟩ := ih (result ++ [seg])
      exact ⟨seg :: l, by simpa using hl, hsub.cons₂ _⟩

lemma deduplicate_segments_sublist (xs : List TranscriptionSegment) :
    (deduplicate_segments xs).Sublist xs := by
  obtain ⟨l, hl, hsub⟩ := dedupGo_sublist xs []
  simpa [deduplicate_segments, hl] using hsub

/-- Claim C1 (amended): in the output of `deduplicate_segments` on a
start-time-sorted input, no two accepted segments `a`, `b` with
`a.start_time < b.start_time` *and start-time delta at most 15 seconds*
have both temporal-overlap ratio (relative to the later candidate `b`)
greater than 0.3 and text similarity greater than 0.6.  The 15-second
fast-exclusion restriction is forced by the counterexample
`c1_counterexample`. -/
theorem c1_dedup_postcondition (xs : List TranscriptionSegment)
    (hsorted : xs.Pairwise (fun a b => segStart a ≤ segStart b))
    (a b : TranscriptionSegment)
    (ha : a ∈ deduplicate_segments xs) (hb : b ∈ deduplicate_segments xs)
    (hab : segStart a < segStart b)
    (hdelta : segStart b - segStart a ≤ 15) :
    ¬(overlapRatio b a > 3/10 ∧
      text_similarity b.content a.content > 6/10) := by
  intro hcontra
  obtain ⟨⟨i, hi⟩, rfl⟩ := List.mem_iff_get.mp ha
  obtain ⟨⟨j, hj⟩, rfl⟩ := List.mem_iff_get.mp hb
  have hout : (deduplicate_segments xs).Pairwise
      (fun a b => segStart a ≤ segStart b) :=
    hsorted.sublist (deduplicate_segments_sublist xs)
  have hij : i < j := by
    rcases lt_trichotomy i j with h | h | h
    · exact h
    · exact absurd hab (by simp [h])
    · have := List.pairwise_iff_get.mp hout ⟨j, hj⟩ ⟨i, hi⟩ h
      exact absurd hab (not_lt.mpr this)
  have hnd : notDupOf ((deduplicate_segments xs).get ⟨i, hi⟩)
      ((deduplicate_segments xs).get ⟨j, hj⟩) :=
    List.pairwise_iff_get.mp (deduplicate_segments_pairwise xs)
      ⟨i, hi⟩ ⟨j, hj⟩ hij
  rw [notDupOf] at hnd
  set b := (deduplicate_segments xs).get ⟨j, hj⟩ with hbdef
  set a := (deduplicate_segments xs).get ⟨i, hi⟩ with hadef
  have habs : ¬(|segStart b - segStart a| > 15) := by
    rw [abs_of_pos (by linarith)]
    linarith
  rw [isDupPair] at hnd
  rw [if_neg habs] at hnd
  simp only [Bool.or_eq_false_iff, decide_eq_false_iff_not] at hnd
  exact hnd.1 hcontra

/-- Counterexample to claim C1 as stated: with segments
`a = (start 0, end 100, "hello")` and `b = (start 20, end 30, "hello")`
(a sorted input), both survive `deduplicate_segments` because their start
times differ by more than the 15-second fast-exclusion window, yet their
overlap ratio relative to `b` is 1 > 0.3 and their text similarity is
1 > 0.6. -/
theorem c1_counterexample :
    deduplicate_segments
        [⟨none, ['h','e','l','l','o'], some 0, some 100⟩,
         ⟨none, ['h','e','l','l','o'], some 20, some 30⟩] =
      [⟨none, ['h','e','l','l','o'], some 0, some 100⟩,
       ⟨none, ['h','e','l','l','o'], some 20, some 30⟩] ∧
    segStart (⟨none, ['h','e','l','l','o'], some 0, some 100⟩ :
        TranscriptionSegment) <
      segStart ⟨none, ['h','e','l','l','o'], some 20, some 30⟩ ∧
    overlapRatio ⟨none, ['h','e','l','l','o'], some 20, some 30⟩
      ⟨none, ['h','e','l','l','o'], some 0, some 100⟩ > 3/10 ∧
    text_similarity ['h','e','l','l','o'] ['h','e','l','l','o'] > 6/10 := by
  refine ⟨?_, ?_, ?_, ?_⟩
  · have hBA : isDupPair ⟨none, ['h','e','l','l','o'], some 20, some 30⟩
        (⟨none, ['h','e','l','l','o'], some 0, some 100⟩ :
          TranscriptionSegment) = false := by
      simp only [isDupPair, segStart, Option.getD_some]
      norm_num
    simp [deduplicate_segments, dedupGo, hBA]
  · norm_num [segStart]
  · simp only [overlapRatio, segStart, segEnd, Option.getD_some]
    rw [max_def, min_def, max_def, max_def]
    norm_num
  · simp +decide [text_similarity, trimStr, isWs, List.dropWhile]
    norm_num

/-- Witness for `c1_dedup_postcondition`: two disjoint, dissimilar
segments 10 seconds apart both survive and satisfy the amended
postcondition. -/
theorem c1_witness :
    (([⟨none, ['a','a'], some 0, some 4⟩,
       ⟨none, ['z','z'], some 10, some 14⟩] :
        List TranscriptionSegment).Pairwise
      (fun a b => segStart a ≤ segStart b)) ∧
    (⟨none, ['a','a'], some 0, some 4⟩ : TranscriptionSegment) ∈
      deduplicate_segments
        [⟨none, ['a','a'], some 0, some 4⟩,
         ⟨none, ['z','z'], some 10, some 14⟩] ∧
    (⟨none, ['z','z'], some 10, some 14⟩ : TranscriptionSegment) ∈
      deduplicate_segments
        [⟨none, ['a','a'], some 0, some 4⟩,
         ⟨none, ['z','z'], some 10, some 14⟩] ∧
    ¬(overlapRatio ⟨none, ['z','z'], some 10, some 14⟩
        ⟨none, ['a','a'], some 0, some 4⟩ > 3/10 ∧
      text_similarity ['z','z'] ['a','a'] > 6/10) := by
  have hor : overlapRatio ⟨none, ['z','z'], some 10, some 14⟩
      (⟨none, ['a','a'], some 0, some 4⟩ : TranscriptionSegment) = 0 := by
    simp only [overlapRatio, segStart, segEnd, Option.getD_some]
    rw [max_def, min_def, max_def, max_def]
    norm_num
  have hBA : isDupPair ⟨none, ['z','z'], some 10, some 14⟩
      (⟨none, ['a','a'], some 0, some 4⟩ : TranscriptionSegment) = false := by
    rw [isDupPair]
    simp only [segStart, Option.getD_some]
    rw [if_neg (by norm_num [abs_of_nonneg])]
    simp only [Bool.or_eq_false_iff, decide_eq_false_iff_not]
    constructor
    · rintro ⟨h1, h2⟩
      rw [hor] at h1
      norm_num at h1
    · rintro ⟨h1, h2⟩
      norm_num [abs_of_nonneg] at h1
  have hded : deduplicate_segments
      [⟨none, ['a','a'], some 0, some 4⟩,
       ⟨none, ['z','z'], some 10, some 14⟩] =
      [⟨none, ['a','a'], some 0, some 4⟩,
       ⟨none, ['z','z'], some 10, some 14⟩] := by
    simp [deduplicate_segments, dedupGo, hBA]
  refine ⟨?_, ?_, ?_, ?_⟩
  · norm_num [segStart]
  · rw [hded]; simp
  · rw [hded]; simp
  · exact c1_dedup_postcondition
      [⟨none, ['a','a'], some 0, some 4⟩, ⟨none, ['z','z'], some 10, some 14⟩]
      (by norm_num [segStart])
      ⟨none, ['a','a'], some 0, some 4⟩ ⟨none, ['z','z'], some 10, some 14⟩
      (by rw [hded]; simp) (by rw [hded]; simp)
      (by norm_num [segStart]) (by norm_num [segStart])

/-- Property of each output position of `dedupGo`: the segment there is not
a duplicate of any segment accepted before it. -/
def selfOK (l : List TranscriptionSegment) : Prop :=
  ∀ j (h : j < l.length),
    (l.take j).any (fun ex => isDupPair (l.get ⟨j, h⟩) ex) = false

lemma selfOK_nil : selfOK [] := by
  intro j h
  simp at h

lemma selfOK_append_singleton {res : List TranscriptionSegment}
    {seg : TranscriptionSegment} (h : selfOK res)
    (hseg : res.any (fun ex => isDupPair seg ex) = false) :
    selfOK (res ++ [seg]) := by
  intro j hj
  have hj' : j < res.length + 1 := by simpa using hj
  rcases Nat.lt_or_ge j res.length with hlt | hge
  · have htake : (res ++ [seg]).take j = res.take j :=
      List.take_append_of_le_length (le_of_lt hlt)
    have hget : (res ++ [seg]).get ⟨j, hj⟩ = res.get ⟨j, hlt⟩ := by
      simp [List.getElem_append_left hlt]
    rw [htake, hget]
    exact h j hlt
  · have hj2 : j = res.length := by omega
    subst hj2
    have htake : (res ++ [seg]).take res.length = res := by
      rw [List.take_append_of_le_length (le_refl _), List.take_length]
    have hget : (res ++ [seg]).get ⟨res.length, hj⟩ = seg := by
      simp [List.getElem_append_right (le_refl res.length)]
    rw [htake, hget]
    exact hseg

lemma dedupGo_selfOK (rest : List TranscriptionSegment)
    (result : List TranscriptionSegment) (h : selfOK result) :
    selfOK (dedupGo rest result) := by
  induction rest generalizing result with
  | nil => simpa [dedupGo] using h
  | cons seg rest ih =>
    rw [dedupGo]
    by_cases hdup : result.any (fun existing => isDupPair seg existing)
    · simpa [hdup] using ih result h
    · rw [if_neg hdup]
      exact ih _ (selfOK_append_singleton h (by simpa using hdup))

lemma dedupGo_of_selfOK (rest : List TranscriptionSegment)
    (result : List TranscriptionSegment) (h : selfOK (result ++ rest)) :
    dedupGo rest result = result ++ rest := by
  induction rest generalizing result with
  | nil => simp [dedupGo]
  | cons seg rest ih =>
    have hlen : result.length < (result ++ seg :: rest).length := by
      simp
    have hnotdup : result.any (fun ex => isDupPair seg ex) = false := by
      have hj := h result.length hlen
      have htake : (result ++ seg :: rest).take result.length = result := by
        rw [List.take_append_of_le_length (le_refl _), List.take_length]
      have hget : (result ++ seg :: rest).get ⟨result.length, hlen⟩ = seg := by
        simp [List.getElem_append_right (le_refl result.length)]
      rw [htake, hget] at hj
      exact hj
    rw [dedupGo, if_neg (by simp [hnotdup])]
    have hassoc : result ++ seg :: rest = (result ++ [seg]) ++ rest := by
      simp
    rw [hassoc] at h ⊢
    exact ih _ h

/-- Claim C7: `deduplicate_segments` is idempotent — applying the
dedup/merge engine to its own output yields that output unchanged. -/
theorem c7_dedup_idempotent (xs : List TranscriptionSegment) :
    deduplicate_segments (deduplicate_segments xs) =
      deduplicate_segments xs := by
  have hok : selfOK (deduplicate_segments xs) :=
    dedupGo_selfOK xs [] selfOK_nil
  have := dedupGo_of_selfOK (deduplicate_segments xs) [] (by simpa using hok)
  simpa [deduplicate_segments] using this

/-- Embeds `extract_subtitles_chunked`: `CHUNK_DURATION` (10 minutes). -/
def CHUNK_DURATION : ℚ := 10 * 60

/-- Embeds `extract_subtitles_chunked`: `OVERLAP` (30 seconds). -/
def OVERLAP : ℚ := 30

/-- Embeds `extract_subtitles_chunked`: `step = CHUNK_DURATION - OVERLAP`. -/
def chunkStep : ℚ := CHUNK_DURATION - OVERLAP

lemma chunkStep_eq : chunkStep = 570 := by
  norm_num [chunkStep, CHUNK_DURATION, OVERLAP]

lemma chunkMeasure_lt {total_duration pos : ℚ} (h : pos < total_duration) :
    (⌈(total_duration - (pos + chunkStep)) / chunkStep⌉).toNat <
      (⌈(total_duration - pos) / chunkStep⌉).toNat := by
  have h1 : (total_duration - (pos + chunkStep)) / chunkStep =
      (total_duration - pos) / chunkStep - 1 := by
    rw [chunkStep_eq]
    ring
  have h2 : 0 < ⌈(total_duration - pos) / chunkStep⌉ := by
    refine Int.ceil_pos.mpr ?_
    rw [chunkStep_eq]
    exact div_pos (by linarith) (by norm_num)
  rw [h1, Int.ceil_sub_one]
  omega

/-- Embeds the `while pos < total_duration` loop of
`extract_subtitles_chunked` that fills `chunk_starts`, parametrised by the
current position. -/
def chunkStartsFrom (total_duration pos : ℚ) : List ℚ :=
  if _h : pos < total_duration then
    pos :: chunkStartsFrom total_duration (pos + chunkStep)
  else []
termination_by (⌈(total_duration - pos) / chunkStep⌉).toNat
decreasing_by exact chunkMeasure_lt (by assumption)

/-- The chunk planner of `extract_subtitles_chunked`: the list of chunk
start offsets, beginning at position 0. -/
def chunk_starts (total_duration : ℚ) : List ℚ :=
  chunkStartsFrom total_duration 0

lemma chunkStartsFrom_mem (total_duration pos x : ℚ) :
    x ∈ chunkStartsFrom total_duration pos ↔
      ∃ k : ℕ, x = pos + chunkStep * k ∧
        pos + chunkStep * k < total_duration := by
  rw [chunkStartsFrom]
  split
  · rename_i h
    rw [List.mem_cons, chunkStartsFrom_mem total_duration (pos + chunkStep) x]
    constructor
    · rintro (rfl | ⟨k, hk, hlt⟩)
      · exact ⟨0, by simp, by simpa using h⟩
      · refine ⟨k + 1, ?_, ?_⟩
        · rw [hk]; push_cast; ring
        · have : pos + chunkStep * (k + 1 : ℕ) =
              pos + chunkStep + chunkStep * k := by push_cast; ring
          rw [this]; exact hlt
    · rintro ⟨k, hk, hlt⟩
      match k with
      | 0 => left; simpa using hk
      | k + 1 =>
        right
        refine ⟨k, ?_, ?_⟩
        · rw [hk]; push_cast; ring
        · have : pos + chunkStep + chunkStep * k =
              pos + chunkStep * (k + 1 : ℕ) := by push_cast; ring
          rw [this]; exact hlt
  · rename_i h
    simp only [List.not_mem_nil, false_iff, not_exists, not_and]
    rintro k rfl
    intro hlt
    have hk : (0 : ℚ) ≤ chunkStep * k := by
      rw [chunkStep_eq]; positivity
    exact h (by linarith)
termination_by (⌈(total_duration - pos) / chunkStep⌉).toNat
decreasing_by exact chunkMeasure_lt (by assumption)

lemma chunk_starts_1800 : chunk_starts 1800 = [0, 570, 1140, 1710] := by
  rw [chunk_starts]
  rw [chunkStartsFrom, dif_pos (show (0:ℚ) < 1800 by norm_num)]
  rw [show (0:ℚ) + chunkStep = 570 by rw [chunkStep_eq]; norm_num]
  rw [chunkStartsFrom, dif_pos (show (570:ℚ) < 1800 by norm_num)]
  rw [show (570:ℚ) + chunkStep = 1140 by rw [chunkStep_eq]; norm_num]
  rw [chunkStartsFrom, dif_pos (show (1140:ℚ) < 1800 by norm_num)]
  rw [show (1140:ℚ) + chunkStep = 1710 by rw [chunkStep_eq]; norm_num]
  rw [chunkStartsFrom, dif_pos (show (1710:ℚ) < 1800 by norm_num)]
  rw [show (1710:ℚ) + chunkStep = 2280 by rw [chunkStep_eq]; norm_num]
  rw [chunkStartsFrom, dif_neg (show ¬((2280:ℚ) < 1800) by norm_num)]

/-- Claim C2 (amended): for total duration 1800 s the chunk planner emits
the start offsets `[0, 570, 1140, 1710]` — four chunks, not three, since
`3 · 570 = 1710` is still below 1800 — and in general it emits exactly the
offsets `0, step, 2·step, …` while the offset is below the total
duration. -/
theorem c2_chunk_planner :
    chunk_starts 1800 = [0, 570, 1140, 1710] ∧
    ∀ total_duration x : ℚ,
      x ∈ chunk_starts total_duration ↔
        ∃ k : ℕ, x = chunkStep * k ∧ chunkStep * k < total_duration := by
  refine ⟨chunk_starts_1800, ?_⟩
  intro total_duration x
  rw [chunk_starts, chunkStartsFrom_mem]
  simp

/-- Counterexample to claim C2 as stated: for total duration 1800 s the
planner's offset list is not `[0, 570, 1140]` (it contains a fourth offset
1710 < 1800). -/
theorem c2_counterexample :
    chunk_starts 1800 ≠ [0, 570, 1140] := by
  rw [chunk_starts_1800]
  simp

/-- Model of Rust `str::find(pattern)`: index of the first occurrence of
`pat` in `s` (character index; byte and character indices induce the same
slices). -/
def findSub (s pat : Str) : Option ℕ :=
  (List.range (s.length + 1)).find? (fun i => pat.isPrefixOf (s.drop i))

/-- Model of Rust `str::rfind(pattern)`: index of the last occurrence of
`pat` in `s`. -/
def rfindSub (s pat : Str) : Option ℕ :=
  (List.range (s.length + 1)).reverse.find? (fun i => pat.isPrefixOf (s.drop i))

/-- Embeds step 3 and step 4 of `extract_json`
(`subtitle_extraction.rs`): slice from the first `\x7b` to the *last*
`\x7d` (via `rfind`), else fall back to trimming the whole text. -/
def extractJsonBrace (content : Str) : Str :=
  match findSub content ['\x7b'], rfindSub content ['\x7d'] with
  | some s, some e =>
    if e > s then (content.drop s).take (e - s + 1) else trimStr content
  | some _, none => trimStr content
  | none, _ => trimStr content

/-- Embeds step 2 of `extract_json`: a generic fenced code block. -/
def extractJsonFence2 (content : Str) : Str :=
  match findSub content ['\x60', '\x60', '\x60'] with
  | some start =>
    match findSub (content.drop (start + 3)) ['\x60', '\x60', '\x60'] with
    | some endOff => trimStr ((content.drop (start + 3)).take endOff)
    | none => extractJsonBrace content
  | none => extractJsonBrace content

/-- Embeds `subtitle_extraction.rs`: `fn extract_json` (step 1 is the
"```json"-tagged fenced block; on failure each step falls through to the
next). -/
def extract_json (content : Str) : Str :=
  match findSub content ("```json".data) with
  | some start =>
    match rfindSub (content.drop start) ("```".data) with
    | some e =>
      if e > 7 then trimStr ((content.drop (start + 7)).take (e - 7))
      else extractJsonFence2 content
    | none => extractJsonFence2 content
  | none => extractJsonFence2 content

/-- Modelled from the spec: extraction step (3) of §4.7 — "the substring
between the first `{` and a balanced matching `}` found by brace-depth
counting".  This is the behaviour the claim attributes to the
transcription pipeline's `extract_json`; it exists in the repository only
in `ai_service.rs`, and is defined here solely for comparison. -/
def braceScanAux : List Char → ℕ → Str → Option Str
  | [], _, _ => none
  | c :: rest, depth, acc =>
    if c = '\x7b' then braceScanAux rest (depth + 1) (acc ++ [c])
    else if c = '\x7d' then
      if depth = 1 then some (acc ++ [c])
      else braceScanAux rest (depth - 1) (acc ++ [c])
    else braceScanAux rest depth (acc ++ [c])

/-- Modelled from the spec: the balanced-brace slice starting at the first
`{` of the text (see `braceScanAux`). -/
def specBalancedSlice (content : Str) : Option Str :=
  match findSub content ['\x7b'] with
  | some i => braceScanAux (content.drop i) 0 []
  | none => none

lemma findSub_none_of_isPrefixOf {s pat pat' : Str}
    (hpp : pat.isPrefixOf pat' = true) (h : findSub s pat = none) :
    findSub s pat' = none := by
  rw [findSub, List.find?_eq_none] at h ⊢
  intro i hi hpre
  refine absurd ?_ (by simpa using h i hi)
  have h1 : pat <+: pat' := List.isPrefixOf_iff_prefix.mp hpp
  have h2 : pat' <+: s.drop i := List.isPrefixOf_iff_prefix.mp (by simpa using hpre)
  exact h1.trans h2

/-- Claim C3 (amended): on any input containing no fenced code block,
`extract_json` returns the substring from the first `\x7b` to the *last*
`\x7d` of the input (found by `rfind`, so trailing text between the
balanced closing brace and a stray later brace is *included*), provided
that last `\x7d` occurs after the first `\x7b`.  The balanced-brace
behaviour the claim describes (`specBalancedSlice`) differs, as
`c3_counterexample` shows. -/
theorem c3_extract_json_brace (s : Str) (i j : ℕ)
    (hfence : findSub s ("```".data) = none)
    (hi : findSub s ['\x7b'] = some i)
    (hj : rfindSub s ['\x7d'] = some j)
    (hij : i < j) :
    extract_json s = (s.drop i).take (j - i + 1) := by
  have hjson : findSub s ("```json".data) = none :=
    findSub_none_of_isPrefixOf (by decide) hfence
  simp only [extract_json, hjson, extractJsonFence2, hfence,
    extractJsonBrace, hi, hj]
  rw [if_pos hij]

/-- Counterexample to claim C3 as stated: on the fence-free input
`x\x7ba\x7db\x7d` the code returns the slice up to the *last* closing
brace (`\x7ba\x7db\x7d`), not the balanced-brace slice `\x7ba\x7d` that
the claim describes. -/
theorem c3_counterexample :
    extract_json ("x\x7ba\x7db\x7d".data) = "\x7ba\x7db\x7d".data ∧
    specBalancedSlice ("x\x7ba\x7db\x7d".data) = some ("\x7ba\x7d".data) ∧
    "\x7ba\x7db\x7d".data ≠ "\x7ba\x7d".data := by
  refine ⟨by decide, by decide, by decide⟩

/-- Witness for `c3_extract_json_brace` at the concrete input
`x\x7ba\x7db\x7d`. -/
theorem c3_witness :
    findSub ("x\x7ba\x7db\x7d".data) ("```".data) = none ∧
    findSub ("x\x7ba\x7db\x7d".data) ['\x7b'] = some 1 ∧
    rfindSub ("x\x7ba\x7db\x7d".data) ['\x7d'] = some 5 ∧
    extract_json ("x\x7ba\x7db\x7d".data) =
      (("x\x7ba\x7db\x7d".data).drop 1).take 5 :=
  ⟨by decide, by decide, by decide,
   c3_extract_json_brace _ 1 5 (by decide) (by decide) (by decide)
     (by decide)⟩

/-- JSON values, as produced by the `serde_json` model. -/
inductive Json where
  | null
  | bool (b : Bool)
  | num (q : ℚ)
  | str (s : Str)
  | arr (elems : List Json)
  | obj (fields : List (Str × Json))

/-- Hexadecimal digit value, for string `\u` escapes. -/
def hexVal (c : Char) : Option ℕ :=
  if '0' ≤ c ∧ c ≤ '9' then some (c.toNat - '0'.toNat)
  else if 'a' ≤ c ∧ c ≤ 'f' then some (c.toNat - 'a'.toNat + 10)
  else if 'A' ≤ c ∧ c ≤ 'F' then some (c.toNat - 'A'.toNat + 10)
  else none

/-- Simple escape characters of JSON strings. -/
def escChar (e : Char) : Option Char :=
  if e = '"' then some '"'
  else if e = '\\' then some '\\'
  else if e = '/' then some '/'
  else if e = 'n' then some '\n'
  else if e = 't' then some '\t'
  else if e = 'r' then some '\r'
  else if e = 'b' then some (Char.ofNat 8)
  else if e = 'f' then some (Char.ofNat 12)
  else none

/-- JSON string-body parser (after the opening quote): returns the decoded
string and the input remaining after the closing quote.  Models
`serde_json` string parsing: standard escapes, `\u` escapes (without
surrogate pairing, which no input considered here uses), and rejection of
raw control characters. -/
def parseStrAux : List Char → Option (Str × List Char)
  | [] => none
  | '"' :: rest => some ([], rest)
  | '\\' :: 'u' :: h1 :: h2 :: h3 :: h4 :: rest =>
    match hexVal h1, hexVal h2, hexVal h3, hexVal h4 with
    | some a, some b, some c4, some d =>
      (parseStrAux rest).map
        (fun p => (Char.ofNat (((a*16+b)*16+c4)*16+d) :: p.1, p.2))
    | _, _, _, _ => none
  | '\\' :: e :: rest =>
    match escChar e with
    | some ch => (parseStrAux rest).map (fun p => (ch :: p.1, p.2))
    | none => none
  | c :: rest =>
    if c.toNat < 32 then none
    else (parseStrAux rest).map (fun p => (c :: p.1, p.2))

/-- Digit-list value, most significant first. -/
def digitsToNat (ds : List Char) : ℕ :=
  ds.foldl (fun acc c => acc * 10 + (c.toNat - '0'.toNat)) 0

/-- Exponent suffix of a JSON/decimal number. -/
def parseExp (mag : ℚ) (s : List Char) : Option (ℚ × List Char) :=
  let p :=
    match s with
    | '-' :: rest => (true, rest)
    | '+' :: rest => (false, rest)
    | _ => (false, s)
  let ed := p.2.takeWhile Char.isDigit
  if ed.isEmpty then none
  else
    let e := digitsToNat ed
    some (if p.1 then mag / (10:ℚ)^e else mag * (10:ℚ)^e,
      p.2.dropWhile Char.isDigit)

/-- Decimal-number parser: models the number grammar shared by
`serde_json` and `str::parse::<f64>` (optional sign, digits, optional
fraction, optional exponent; the leading-zero restriction of strict JSON
is not modelled, and no input considered here depends on it). -/
def parseNumber (s : List Char) : Option (ℚ × List Char) :=
  let p :=
    match s with
    | '-' :: rest => (true, rest)
    | _ => (false, s)
  let ip := p.2.takeWhile Char.isDigit
  let s2 := p.2.dropWhile Char.isDigit
  if ip.isEmpty then none
  else
    let cont2 : Option (ℚ × List Char) :=
      match s2 with
      | '.' :: rest =>
        let fd := rest.takeWhile Char.isDigit
        if fd.isEmpty then none
        else some ((digitsToNat ip : ℚ) + (digitsToNat fd : ℚ) / (10:ℚ)^fd.length,
          rest.dropWhile Char.isDigit)
      | _ => some ((digitsToNat ip : ℚ), s2)
    match cont2 with
    | none => none
    | some (mag, s3) =>
      let cont3 : Option (ℚ × List Char) :=
        match s3 with
        | 'e' :: rest => parseExp mag rest
        | 'E' :: rest => parseExp mag rest
        | _ => some (mag, s3)
      match cont3 with
      | none => none
      | some (mag2, s4) => some (if p.1 then -mag2 else mag2, s4)

/-- Replace-or-append of an object field (models `serde_json`'s map
insert, where a duplicate key overwrites the earlier value). -/
def insertField (fields : List (Str × Json)) (key : Str) (v : Json) :
    List (Str × Json) :=
  if fields.any (fun f => f.1 == key) then
    fields.map (fun f => if f.1 == key then (key, v) else f)
  else fields ++ [(key, v)]

mutual

/-- Fuel-indexed JSON value parser (models `serde_json::from_str`; the
fuel is a recursion bound only, set large enough at the entry point that
it is never exhausted on the inputs considered). -/
def parseValue : ℕ → List Char → Option (Json × List Char)
  | 0, _ => none
  | fuel + 1, s =>
    let s := s.dropWhile isWs
    match s with
    | 'n' :: 'u' :: 'l' :: 'l' :: rest => some (.null, rest)
    | 't' :: 'r' :: 'u' :: 'e' :: rest => some (.bool true, rest)
    | 'f' :: 'a' :: 'l' :: 's' :: 'e' :: rest => some (.bool false, rest)
    | '"' :: rest => (parseStrAux rest).map (fun p => (.str p.1, p.2))
    | '\x7b' :: rest => parseObjBody fuel (rest.dropWhile isWs)
    | '[' :: rest => parseArrBody fuel (rest.dropWhile isWs)
    | _ => (parseNumber s).map (fun p => (.num p.1, p.2))

/-- Object body after the opening brace (and leading whitespace). -/
def parseObjBody : ℕ → List Char → Option (Json × List Char)
  | 0, _ => none
  | fuel + 1, s =>
    match s with
    | '\x7d' :: rest => some (.obj [], rest)
    | _ => parseObjFields fuel s []

/-- Comma-separated `"key": value` fields; rejects trailing commas, as
strict JSON does. -/
def parseObjFields : ℕ → List Char → List (Str × Json) →
    Option (Json × List Char)
  | 0, _, _ => none
  | fuel + 1, s, acc =>
    match s with
    | '"' :: rest =>
      match parseStrAux rest with
      | none => none
      | some (key, rest2) =>
        match rest2.dropWhile isWs with
        | ':' :: rest3 =>
          match parseValue fuel rest3 with
          | none => none
          | some (v, rest4) =>
            match rest4.dropWhile isWs with
            | ',' :: rest5 =>
              parseObjFields fuel (rest5.dropWhile isWs) (insertField acc key v)
            | '\x7d' :: rest5 => some (.obj (insertField acc key v), rest5)
            | _ => none
        | _ => none
    | _ => none

/-- Array body after the opening bracket (and leading whitespace). -/
def parseArrBody : ℕ → List Char → Option (Json × List Char)
  | 0, _ => none
  | fuel + 1, s =>
    match s with
    | ']' :: rest => some (.arr [], rest)
    | _ => parseArrElems fuel s []

/-- Comma-separated array elements; rejects trailing commas. -/
def parseArrElems : ℕ → List Char → List Json → Option (Json × List Char)
  | 0, _, _ => none
  | fuel + 1, s, acc =>
    match parseValue fuel s with
    | none => none
    | some (v, rest) =>
      match rest.dropWhile isWs with
      | ',' :: rest2 => parseArrElems fuel rest2 (acc ++ [v])
      | ']' :: rest2 => some (.arr (acc ++ [v]), rest2)
      | _ => none

end

/-- Model of `serde_json::from_str::<Value>`: parse one value and require
only trailing whitespace after it. -/
def parseJson (s : Str) : Option Json :=
  match parseValue (s.length + 1) s with
  | some (v, rest) => if (rest.dropWhile isWs).isEmpty then some v else none
  | none => none

/-- Field lookup in a parsed object. -/
def jLookup (fields : List (Str × Json)) (key : Str) : Option Json :=
  (fields.find? (fun f => f.1 == key)).map (fun f => f.2)

/-- Model of `serde_json` `Value` indexing with a string key
(`value["key"]`): `Null` when the value is not an object or the key is
missing. -/
def jIndex (v : Json) (key : Str) : Json :=
  match v with
  | .obj fields => (jLookup fields key).getD .null
  | _ => .null

/-- Model of `Value::get(key)`: `Some` only for an object containing the
key. -/
def jGet (v : Json) (key : Str) : Option Json :=
  match v with
  | .obj fields => jLookup fields key
  | _ => none

/-- Model of `Value::as_str`. -/
def Json.asStr : Json → Option Str
  | .str s => some s
  | _ => none

/-- Model of `Value::as_array`. -/
def Json.asArr : Json → Option (List Json)
  | .arr l => some l
  | _ => none

/-- Model of `str::parse::<f64>()`: the whole string must be a decimal
number (`Ok`/`Some`), otherwise `Err`/`none`. -/
def parseF64 (s : Str) : Option ℚ :=
  match parseNumber s with
  | some (q, rest) => if rest.isEmpty then some q else none
  | none => none

/-- Embeds `subtitle_extraction.rs`: `fn parse_time_str` — `MM:SS` or
`HH:MM:SS` to seconds, with `unwrap_or(0.0)` for each numeric part and
`0.0` for any other shape. -/
def parse_time_str (time_str : Str) : ℚ :=
  match time_str.splitOn ':' with
  | [m, s] => (parseF64 m).getD 0 * 60 + (parseF64 s).getD 0
  | [h, m, s] =>
    (parseF64 h).getD 0 * 3600 + (parseF64 m).getD 0 * 60 + (parseF64 s).getD 0
  | _ => 0

/-- Embeds the per-entry closure of the `filter_map` inside
`parse_transcription_response`: accept `"start"` (or legacy
`"timestamp"`) plus `"content"`, default a missing `"end"` to the start
string, and build a segment with both timestamps present. -/
def segOfJson (seg : Json) : Option TranscriptionSegment :=
  match ((jIndex seg ("start".data)).asStr).or ((jIndex seg ("timestamp".data)).asStr) with
  | none => none
  | some start_str =>
    let end_str := ((jIndex seg ("end".data)).asStr).getD start_str
    let start_time := parse_time_str start_str
    let end_time := parse_time_str end_str
    match (jIndex seg ("content".data)).asStr with
    | none => none
    | some c =>
      some ⟨(jIndex seg ("speaker".data)).asStr, c, some start_time, some end_time⟩

/-- Error values of the response parser (the formatted Rust error strings
are abstracted to their structural content). -/
inductive ParseErr where
  | jsonParseFailed (json_str content : Str)
  | noSegmentsField
deriving DecidableEq

/-- The `serde_json::from_str` + field-extraction tail of
`parse_transcription_response` applied to a chosen `json_str`. -/
def parseSegments (json_str content : Str) : Except ParseErr TranscriptionResult :=
  match parseJson json_str with
  | none => .error (.jsonParseFailed json_str content)
  | some parsed =>
    match (jIndex parsed ("segments".data)).asArr with
    | none => .error .noSegmentsField
    | some arr =>
      .ok ⟨arr.filterMap segOfJson, ((jIndex parsed ("full_text".data)).asStr).getD []⟩

/-- Embeds `subtitle_extraction.rs`: `fn parse_transcription_response` —
empty input and non-extractable input are treated as silence; otherwise
the extracted (or raw, when it itself is JSON with a `segments` field)
string is parsed. -/
def parseExtracted (content json_str : Str) :
    Except ParseErr TranscriptionResult :=
  if (trimStr json_str).isEmpty then
    match parseJson content with
    | some parsed =>
      if (jGet parsed ("segments".data)).isSome then parseSegments content content
      else .ok ⟨[], []⟩
    | none => .ok ⟨[], []⟩
  else parseSegments json_str content

def parse_transcription_response (content : Str) :
    Except ParseErr TranscriptionResult :=
  if (trimStr content).isEmpty then .ok ⟨[], []⟩
  else parseExtracted content (extract_json content)

/-- Single left-to-right pass removing a comma followed by optional
whitespace and the closing character `close`; models one
`Regex::replace_all` pass of `AIService::repair_json` (every match of the
pattern starts at a comma, so rescanning the copied tail never creates or
misses a match). -/
def stripTrailingCommas (close : Char) : Str → Str
  | [] => []
  | c :: rest =>
    if c = ',' ∧ (rest.dropWhile isWs).head? = some close then
      stripTrailingCommas close rest
    else c :: stripTrailingCommas close rest

/-- Embeds `ai_service.rs`: `AIService::repair_json` — strip trailing
commas before `\x7d` and `]`, then normalise curly quotes. -/
def repair_json (json_str : Str) : Str :=
  let r1 := stripTrailingCommas '\x7d' json_str
  let r2 := stripTrailingCommas ']' r1
  r2.map (fun c => if c = '“' ∨ c = '”' then '"' else c)

/-- Counterexample to claim C4 as stated: on the scenario input
`{"segments": [{"content": "hi",}], }` the transcription response parser
(`parse_transcription_response`) returns a JSON parse error — it applies
no repair pass before giving up. -/
theorem c4_counterexample :
    parse_transcription_response
        ("\x7b\"segments\": [\x7b\"content\": \"hi\",\x7d], \x7d".data) =
      Except.error
        (ParseErr.jsonParseFailed
          ("\x7b\"segments\": [\x7b\"content\": \"hi\",\x7d], \x7d".data)
          ("\x7b\"segments\": [\x7b\"content\": \"hi\",\x7d], \x7d".data)) := by
  rfl

/-- Claim C4 (amended): the transcription response parser has no repair
pass — on the scenario input it returns a parse error directly; the
repair pass (trailing-comma stripping and smart-quote normalisation)
exists only in the AI explanation service (`AIService::repair_json`),
and applying that helper to the scenario input does yield a string that
parses successfully. -/
theorem c4_repair_location :
    parse_transcription_response
        ("\x7b\"segments\": [\x7b\"content\": \"hi\",\x7d], \x7d".data) =
      Except.error
        (ParseErr.jsonParseFailed
          ("\x7b\"segments\": [\x7b\"content\": \"hi\",\x7d], \x7d".data)
          ("\x7b\"segments\": [\x7b\"content\": \"hi\",\x7d], \x7d".data)) ∧
    (parseJson (repair_json
        ("\x7b\"segments\": [\x7b\"content\": \"hi\",\x7d], \x7d".data))).isSome
      = true := by
  refine ⟨rfl, rfl⟩

/-- Claim C9: an empty or whitespace-only backend response parses to the
empty result (`segments = []`, `full_text = ""`) rather than an error;
and a response from which no JSON can be extracted and which is not
itself JSON carrying a `segments` field also parses to the empty result,
not an error. -/
theorem c9_empty_response (content : Str) :
    ((trimStr content).isEmpty = true →
      parse_transcription_response content = .ok ⟨[], []⟩) ∧
    ((trimStr (extract_json content)).isEmpty = true →
      (∀ v, parseJson content = some v → jGet v ("segments".data) = none) →
      parse_transcription_response content = .ok ⟨[], []⟩) := by
  constructor
  · intro h
    rw [parse_transcription_response, if_pos h]
  · intro h1 h2
    rw [parse_transcription_response]
    by_cases hc : (trimStr content).isEmpty
    · rw [if_pos hc]
    · rw [if_neg hc, parseExtracted, if_pos h1]
      cases hp : parseJson content with
      | none => rfl
      | some v =>
        have := h2 v hp
        simp [this]

/-- Witness for `c9_empty_response`: a whitespace-only response and a
response consisting of an empty fenced block (so that extraction yields
the empty string and the raw text is not JSON). -/
theorem c9_witness :
    parse_transcription_response ("  ".data) =
      .ok ⟨[], []⟩ ∧
    parse_transcription_response ("```json\n```".data) =
      .ok ⟨[], []⟩ := by
  constructor
  · exact (c9_empty_response ("  ".data)).1 (by decide)
  · refine (c9_empty_response ("```json\n```".data)).2 (by decide) ?_
    intro v hv
    have hnone : parseJson ("```json\n```".data) = none := rfl
    rw [hnone] at hv
    exact Option.noConfusion hv

lemma segOfJson_times (j : Json) (s : TranscriptionSegment)
    (h : segOfJson j = some s) :
    s.start_time.isSome = true ∧ s.end_time.isSome = true := by
  rw [segOfJson] at h
  cases hst : ((jIndex j ("start".data)).asStr).or
      ((jIndex j ("timestamp".data)).asStr) with
  | none => rw [hst] at h; exact absurd h (by simp)
  | some start_str =>
    rw [hst] at h
    simp only at h
    cases hc : (jIndex j ("content".data)).asStr with
    | none => rw [hc] at h; exact absurd h (by simp)
    | some c =>
      rw [hc] at h
      simp only [Option.some_inj] at h
      subst h
      exact ⟨rfl, rfl⟩

lemma parseSegments_times (js c : Str) (r : TranscriptionResult)
    (h : parseSegments js c = .ok r) :
    ∀ s ∈ r.segments, s.start_time.isSome = true ∧ s.end_time.isSome = true := by
  rw [parseSegments] at h
  cases hp : parseJson js with
  | none => rw [hp] at h; exact absurd h (by simp)
  | some parsed =>
    rw [hp] at h
    simp only at h
    cases ha : (jIndex parsed ("segments".data)).asArr with
    | none => rw [ha] at h; exact absurd h (by simp)
    | some arr =>
      rw [ha] at h
      simp only [Except.ok.injEq] at h
      subst h
      intro s hs
      simp only [List.mem_filterMap] at hs
      obtain ⟨j, _, hj⟩ := hs
      exact segOfJson_times j s hj

/-- Claim C10: every segment emitted by the transcription response parser
has `start_time = Some _` and `end_time = Some _`; a missing `"end"`
field defaults the end time to the segment's start value; a time string
that is not colon-split into 2 or 3 parts, or all of whose numeric parts
fail to parse, maps to 0.0 seconds; and entries lacking a `"content"`
string, or lacking both `"start"` and `"timestamp"`, are silently
dropped. -/
theorem c10_parser_totality :
    (∀ (content : Str) (r : TranscriptionResult),
      parse_transcription_response content = .ok r →
      ∀ s ∈ r.segments,
        s.start_time.isSome = true ∧ s.end_time.isSome = true) ∧
    (∀ j : Json, (jIndex j ("end".data)).asStr = none →
      ∀ s, segOfJson j = some s → s.end_time = s.start_time) ∧
    (∀ t : Str, (t.splitOn ':').length ≠ 2 → (t.splitOn ':').length ≠ 3 →
      parse_time_str t = 0) ∧
    (∀ t : Str, (∀ p ∈ t.splitOn ':', parseF64 p = none) →
      parse_time_str t = 0) ∧
    (∀ j : Json, (jIndex j ("content".data)).asStr = none →
      segOfJson j = none) ∧
    (∀ j : Json, (jIndex j ("start".data)).asStr = none →
      (jIndex j ("timestamp".data)).asStr = none → segOfJson j = none) := by
  refine ⟨?_, ?_, ?_, ?_, ?_, ?_⟩
  · intro content r h
    rw [parse_transcription_response] at h
    split at h
    · simp only [Except.ok.injEq] at h
      subst h
      intro s hs
      simp at hs
    · rw [parseExtracted] at h
      split at h
      · split at h
        · split at h
          · exact parseSegments_times _ _ _ h
          · simp only [Except.ok.injEq] at h
            subst h
            intro s hs
            simp at hs
        · simp only [Except.ok.injEq] at h
          subst h
          intro s hs
          simp at hs
      · exact parseSegments_times _ _ _ h
  · intro j hend s h
    rw [segOfJson] at h
    cases hst : ((jIndex j ("start".data)).asStr).or
        ((jIndex j ("timestamp".data)).asStr) with
    | none => rw [hst] at h; exact absurd h (by simp)
    | some start_str =>
      rw [hst] at h
      simp only [hend, Option.getD_none] at h
      cases hc : (jIndex j ("content".data)).asStr with
      | none => rw [hc] at h; exact absurd h (by simp)
      | some c =>
        rw [hc] at h
        simp only [Option.some_inj] at h
        subst h
        rfl
  · intro t h2 h3
    rw [parse_time_str]
    split
    · rename_i m s heq
      exact absurd (by rw [heq]; rfl) h2
    · rename_i h m s heq
      exact absurd (by rw [heq]; rfl) h3
    · rfl
  · intro t hall
    rw [parse_time_str]
    split
    · rename_i m s heq
      have hm : parseF64 m = none := hall m (by rw [heq]; simp)
      have hs : parseF64 s = none := hall s (by rw [heq]; simp)
      rw [hm, hs]
      norm_num
    · rename_i h m s heq
      have hh : parseF64 h = none := hall h (by rw [heq]; simp)
      have hm : parseF64 m = none := hall m (by rw [heq]; simp)
      have hs : parseF64 s = none := hall s (by rw [heq]; simp)
      rw [hh, hm, hs]
      norm_num
    · rfl
  · intro j hc
    rw [segOfJson]
    split
    · rfl
    · rw [hc]
  · intro j h1 h2
    rw [segOfJson, h1, h2]
    rfl

/-- Witness for `c10_parser_totality` at concrete inputs: a 1-part time
string and an unparsable 2-part time string map to 0; a missing `"end"`
defaults to the start; entries without `"content"` or without both
`"start"` and `"timestamp"` are dropped; and a parsed response's segment
carries `Some` timestamps. -/
theorem c10_witness :
    parse_time_str ("bogus".data) = 0 ∧
    parse_time_str ("aa:bb".data) = 0 ∧
    ((⟨none, "hi".data, some 0, some 0⟩ : TranscriptionSegment).end_time =
      (⟨none, "hi".data, some 0, some 0⟩ : TranscriptionSegment).start_time) ∧
    segOfJson (Json.obj [(("start".data), Json.str ("00:05".data))]) = none ∧
    segOfJson Json.null = none ∧
    (⟨none, "hi".data, some 0, some 0⟩ :
      TranscriptionSegment).start_time.isSome = true := by
  refine ⟨?_, ?_, ?_, ?_, ?_, ?_⟩
  · exact c10_parser_totality.2.2.1 ("bogus".data) (by decide) (by decide)
  · exact c10_parser_totality.2.2.2.1 ("aa:bb".data) (by decide)
  · exact c10_parser_totality.2.1
      (Json.obj [(("start".data), Json.str ("a:b:c:d".data)),
        (("content".data), Json.str ("hi".data))])
      rfl ⟨none, "hi".data, some 0, some 0⟩ rfl
  · exact c10_parser_totality.2.2.2.2.1
      (Json.obj [(("start".data), Json.str ("00:05".data))]) rfl
  · exact c10_parser_totality.2.2.2.2.2 Json.null rfl rfl
  · exact (c10_parser_totality.1
      ("\x7b\"segments\": [\x7b\"start\": \"bad\", \"content\": \"hi\"\x7d]\x7d".data)
      ⟨[⟨none, "hi".data, some 0, some 0⟩], []⟩ rfl
      ⟨none, "hi".data, some 0, some 0⟩ (by simp)).1

/-- Embeds the `retain` predicate of the merge stage of
`extract_subtitles_chunked`: keep only segments with both timestamps. -/
def keepTimed (s : TranscriptionSegment) : Bool :=
  s.start_time.isSome && s.end_time.isSome

/-- Embeds the `sort_by` of the merge stage: stable sort ascending by
start time (`unwrap_or(0.0)`, with `partial_cmp … unwrap_or(Equal)`
total on the rational model). -/
def sortSegments (xs : List TranscriptionSegment) : List TranscriptionSegment :=
  xs.mergeSort (fun a b => decide (segStart a ≤ segStart b))

/-- Embeds the merge stage of `extract_subtitles_chunked` (lines 513-526):
filter out segments missing a timestamp, sort by start time, then
deduplicate. -/
def merge_and_dedup (xs : List TranscriptionSegment) :
    List TranscriptionSegment :=
  deduplicate_segments (sortSegments (xs.filter keepTimed))

/-- Claim C5: for every accumulator of raw segments, the merge stage's
output is sorted ascending by `start_time` and contains no segment whose
`start_time` or `end_time` is missing (such segments are removed before
sorting, not retained). -/
theorem c5_merge_sorted_and_timed (xs : List TranscriptionSegment) :
    (merge_and_dedup xs).Pairwise (fun a b => segStart a ≤ segStart b) ∧
    ∀ s ∈ merge_and_dedup xs,
      s.start_time.isSome = true ∧ s.end_time.isSome = true := by
  constructor
  · have hsorted : (sortSegments (xs.filter keepTimed)).Pairwise
        (fun a b => segStart a ≤ segStart b) := by
      have := @List.sorted_mergeSort TranscriptionSegment
        (fun a b : TranscriptionSegment => decide (segStart a ≤ segStart b))
        (fun a b c h1 h2 => by
          simp only [decide_eq_true_eq] at h1 h2 ⊢
          exact le_trans h1 h2)
        (fun a b => by
          simp only [Bool.or_eq_true, decide_eq_true_eq]
          exact le_total _ _)
        (xs.filter keepTimed)
      exact this.imp (by simp)
    exact hsorted.sublist (deduplicate_segments_sublist _)
  · intro s hs
    have hmem : s ∈ sortSegments (xs.filter keepTimed) :=
      (deduplicate_segments_sublist _).mem hs
    have hmem2 : s ∈ xs.filter keepTimed :=
      ((xs.filter keepTimed).mergeSort_perm _).mem_iff.mp hmem
    have := List.of_mem_filter hmem2
    simpa [keepTimed] using this

/-- Default segment used only to state positional facts via `getD`. -/
def dfltSeg : TranscriptionSegment := ⟨none, [], none, none⟩

/-- Embeds step 4 of `extract_and_transcribe_segment`: shift each present
timestamp by the window start offset, leaving content and speaker (and
absent timestamps) unchanged. -/
def adjustSegmentTimes (start_time : ℚ)
    (segments : List TranscriptionSegment) : List TranscriptionSegment :=
  segments.map (fun seg =>
    { seg with
      start_time :=
        match seg.start_time with
        | some st => some (st + start_time)
        | none => none,
      end_time :=
        match seg.end_time with
        | some et => some (et + start_time)
        | none => none })

/-- Claim C6: offset correction is additive — for window start offset `T`,
a segment's local `Some t` start (resp. end) becomes global
`Some (t + T)`, an absent timestamp stays absent, and content and speaker
are unchanged. -/
theorem c6_offset_additive (T : ℚ) (segs : List TranscriptionSegment)
    (i : ℕ) (hi : i < segs.length) :
    (∀ t, (segs.getD i dfltSeg).start_time = some t →
      ((adjustSegmentTimes T segs).getD i dfltSeg).start_time = some (t + T)) ∧
    ((segs.getD i dfltSeg).start_time = none →
      ((adjustSegmentTimes T segs).getD i dfltSeg).start_time = none) ∧
    (∀ t, (segs.getD i dfltSeg).end_time = some t →
      ((adjustSegmentTimes T segs).getD i dfltSeg).end_time = some (t + T)) ∧
    ((segs.getD i dfltSeg).end_time = none →
      ((adjustSegmentTimes T segs).getD i dfltSeg).end_time = none) ∧
    ((adjustSegmentTimes T segs).getD i dfltSeg).content =
      (segs.getD i dfltSeg).content ∧
    ((adjustSegmentTimes T segs).getD i dfltSeg).speaker =
      (segs.getD i dfltSeg).speaker := by
  obtain ⟨s, hsome⟩ : ∃ s, segs[i]? = some s :=
    ⟨segs[i], List.getElem?_eq_getElem hi⟩
  have h1 : segs.getD i dfltSeg = s := by
    rw [List.getD_eq_getElem?_getD, hsome]
    rfl
  have h2 : (adjustSegmentTimes T segs).getD i dfltSeg =
      { s with
        start_time :=
          match s.start_time with
          | some st => some (st + T)
          | none => none,
        end_time :=
          match s.end_time with
          | some et => some (et + T)
          | none => none } := by
    rw [List.getD_eq_getElem?_getD, adjustSegmentTimes, List.getElem?_map,
      hsome]
    rfl
  rw [h1, h2]
  refine ⟨?_, ?_, ?_, ?_, ?_, ?_⟩
  · intro t ht; simp [ht]
  · intro ht; simp [ht]
  · intro t ht; simp [ht]
  · intro ht; simp [ht]
  · rfl
  · rfl

/-- Witness for `c6_offset_additive`: a window at 570 s with one timed
segment and one untimed segment. -/
theorem c6_witness :
    ((adjustSegmentTimes 570
      [⟨none, "hi".data, some 25, some 29⟩, ⟨none, "x".data, none, none⟩]).getD
        0 dfltSeg).start_time = some (25 + 570) ∧
    ((adjustSegmentTimes 570
      [⟨none, "hi".data, some 25, some 29⟩, ⟨none, "x".data, none, none⟩]).getD
        1 dfltSeg).end_time = none :=
  ⟨(c6_offset_additive 570
      [⟨none, "hi".data, some 25, some 29⟩, ⟨none, "x".data, none, none⟩]
      0 (by decide)).1 25 rfl,
   (c6_offset_additive 570
      [⟨none, "hi".data, some 25, some 29⟩, ⟨none, "x".data, none, none⟩]
      1 (by decide)).2.2.2.1 rfl⟩

/-- One backend round trip of `transcribe_audio_with_gemini`, abstracted:
a transport error (`reqwest` send/body failure), a non-success HTTP
status, or a successfully extracted response content string. -/
inductive BackendResponse where
  | netErr (e : Str)
  | httpErr (e : Str)
  | body (content : Str)

/-- Errors of the retry loop (formatted Rust messages abstracted to their
structural content). -/
inductive TranscribeErr where
  | network (e : Str)
  | http (e : Str)
  | retriesExhausted (e : ParseErr)

/-- Embeds `transcribe_audio_with_gemini`: `MAX_RETRIES`. -/
def MAX_RETRIES : ℕ := 3

/-- Embeds the retry loop of `transcribe_audio_with_gemini`, over an
oracle `backend` giving the outcome of the attempt with each
`retry_count`.  Returns the result together with the number of backend
calls made and the number of 2-second sleeps taken. -/
def transcribeAux (backend : ℕ → BackendResponse) (retry_count : ℕ) :
    Except TranscribeErr TranscriptionResult × ℕ × ℕ :=
  match backend retry_count with
  | .netErr e => (.error (.network e), 1, 0)
  | .httpErr e => (.error (.http e), 1, 0)
  | .body c =>
    match parse_transcription_response c with
    | .ok result => (.ok result, 1, 0)
    | .error e =>
      if retry_count + 1 ≥ MAX_RETRIES then
        (.error (.retriesExhausted e), 1, 0)
      else
        let r := transcribeAux backend (retry_count + 1)
        (r.1, r.2.1 + 1, r.2.2 + 1)
termination_by MAX_RETRIES - retry_count
decreasing_by
  rename_i h
  simp only [MAX_RETRIES, ge_iff_le, not_le] at h
  simp only [MAX_RETRIES]
  omega

/-- The retry loop entered with `retry_count = 0`, as
`transcribe_audio_with_gemini` does. -/
def transcribe_audio_run (backend : ℕ → BackendResponse) :
    Except TranscribeErr TranscriptionResult × ℕ × ℕ :=
  transcribeAux backend 0

lemma transcribeAux_net (backend : ℕ → BackendResponse) (rc : ℕ) (e : Str)
    (h : backend rc = .netErr e) :
    transcribeAux backend rc = (.error (.network e), 1, 0) := by
  rw [transcribeAux]
  simp only [h]

lemma transcribeAux_http (backend : ℕ → BackendResponse) (rc : ℕ) (e : Str)
    (h : backend rc = .httpErr e) :
    transcribeAux backend rc = (.error (.http e), 1, 0) := by
  rw [transcribeAux]
  simp only [h]

lemma transcribeAux_ok (backend : ℕ → BackendResponse) (rc : ℕ) (c : Str)
    (r : TranscriptionResult) (hb : backend rc = .body c)
    (hp : parse_transcription_response c = .ok r) :
    transcribeAux backend rc = (.ok r, 1, 0) := by
  rw [transcribeAux]
  simp only [hb, hp]

lemma transcribeAux_fail_last (backend : ℕ → BackendResponse) (rc : ℕ)
    (c : Str) (e : ParseErr) (hb : backend rc = .body c)
    (hp : parse_transcription_response c = .error e)
    (hge : rc + 1 ≥ MAX_RETRIES) :
    transcribeAux backend rc = (.error (.retriesExhausted e), 1, 0) := by
  rw [transcribeAux]
  simp only [hb, hp]
  rw [if_pos hge]

lemma transcribeAux_fail_retry (backend : ℕ → BackendResponse) (rc : ℕ)
    (c : Str) (e : ParseErr) (hb : backend rc = .body c)
    (hp : parse_transcription_response c = .error e)
    (hlt : rc + 1 < MAX_RETRIES) :
    transcribeAux backend rc =
      ((transcribeAux backend (rc + 1)).1,
        (transcribeAux backend (rc + 1)).2.1 + 1,
        (transcribeAux backend (rc + 1)).2.2 + 1) := by
  rw [transcribeAux]
  simp only [hb, hp]
  rw [if_neg (by omega)]

lemma transcribeAux_calls (backend : ℕ → BackendResponse) :
    ∀ fuel rc, 3 - rc ≤ fuel → rc < 3 →
      1 ≤ (transcribeAux backend rc).2.1 ∧
      (transcribeAux backend rc).2.1 ≤ 3 - rc ∧
      (transcribeAux backend rc).2.2 = (transcribeAux backend rc).2.1 - 1 := by
  intro fuel
  induction fuel with
  | zero => intro rc h hlt; omega
  | succ n ih =>
    intro rc h hlt
    rcases hbk : backend rc with e | e | c
    · rw [transcribeAux_net backend rc e hbk]
      simp
      omega
    · rw [transcribeAux_http backend rc e hbk]
      simp
      omega
    · rcases hpo : parse_transcription_response c with e | r
      · by_cases hge : rc + 1 ≥ MAX_RETRIES
        · rw [transcribeAux_fail_last backend rc c e hbk hpo hge]
          simp
          omega
        · have hlt2 : rc + 1 < MAX_RETRIES := by omega
          rw [transcribeAux_fail_retry backend rc c e hbk hpo hlt2]
          simp only
          have hrc3 : rc + 1 < 3 := by
            simpa [MAX_RETRIES] using hlt2
          obtain ⟨ih1, ih2, ih3⟩ := ih (rc + 1) (by omega) hrc3
          refine ⟨by omega, by omega, by omega⟩
      · rw [transcribeAux_ok backend rc c r hbk hpo]
        simp
        omega

/-- Claim C8: the retry loop makes at most 3 backend calls; the number of
fixed 2-second sleeps is one less than the number of calls (a sleep
happens exactly before each retry); a network or HTTP-level failure on
the first attempt returns an error after exactly one call with no sleep
and no retry; a successful parse on the first attempt returns after one
call; a parse failure on the first attempt forces at least a second call
and a sleep; and three consecutive parse failures return an error after
exactly 3 calls and 2 sleeps, carrying the last parse error. -/
theorem c8_retry_policy (backend : ℕ → BackendResponse) :
    ((transcribe_audio_run backend).2.1 ≤ 3 ∧
      (transcribe_audio_run backend).2.2 =
        (transcribe_audio_run backend).2.1 - 1) ∧
    (∀ e, backend 0 = .netErr e →
      transcribe_audio_run backend = (.error (.network e), 1, 0)) ∧
    (∀ e, backend 0 = .httpErr e →
      transcribe_audio_run backend = (.error (.http e), 1, 0)) ∧
    (∀ c r, backend 0 = .body c → parse_transcription_response c = .ok r →
      transcribe_audio_run backend = (.ok r, 1, 0)) ∧
    (∀ c e, backend 0 = .body c → parse_transcription_response c = .error e →
      2 ≤ (transcribe_audio_run backend).2.1 ∧
        1 ≤ (transcribe_audio_run backend).2.2) ∧
    (∀ c0 c1 c2 e0 e1 e2,
      backend 0 = .body c0 → parse_transcription_response c0 = .error e0 →
      backend 1 = .body c1 → parse_transcription_response c1 = .error e1 →
      backend 2 = .body c2 → parse_transcription_response c2 = .error e2 →
      transcribe_audio_run backend = (.error (.retriesExhausted e2), 3, 2)) := by
  have hcalls := transcribeAux_calls backend 3 0 (by omega) (by omega)
  refine ⟨⟨by simpa [transcribe_audio_run] using hcalls.2.1,
    by simpa [transcribe_audio_run] using hcalls.2.2⟩, ?_, ?_, ?_, ?_, ?_⟩
  · intro e h
    rw [transcribe_audio_run, transcribeAux_net backend 0 e h]
  · intro e h
    rw [transcribe_audio_run, transcribeAux_http backend 0 e h]
  · intro c r hb hp
    rw [transcribe_audio_run, transcribeAux_ok backend 0 c r hb hp]
  · intro c e hb hp
    have h1 : (0:ℕ) + 1 < MAX_RETRIES := by simp [MAX_RETRIES]
    rw [transcribe_audio_run, transcribeAux_fail_retry backend 0 c e hb hp h1]
    have h2 := transcribeAux_calls backend 3 1 (by omega) (by omega)
    constructor
    · show 2 ≤ (transcribeAux backend 1).2.1 + 1
      omega
    · show 1 ≤ (transcribeAux backend 1).2.2 + 1
      omega
  · intro c0 c1 c2 e0 e1 e2 hb0 hp0 hb1 hp1 hb2 hp2
    have h1 : (0:ℕ) + 1 < MAX_RETRIES := by simp [MAX_RETRIES]
    have h2 : (1:ℕ) + 1 < MAX_RETRIES := by simp [MAX_RETRIES]
    have h3 : (2:ℕ) + 1 ≥ MAX_RETRIES := by simp [MAX_RETRIES]
    rw [transcribe_audio_run,
      transcribeAux_fail_retry backend 0 c0 e0 hb0 hp0 h1,
      transcribeAux_fail_retry backend 1 c1 e1 hb1 hp1 h2,
      transcribeAux_fail_last backend 2 c2 e2 hb2 hp2 h3]

/-- Witness for `c8_retry_policy`: a backend that always returns the
unparseable body `\x7b,\x7d` exhausts all 3 attempts with 2 sleeps; the
theorem is applied at that backend and at one failing immediately with a
network error. -/
theorem c8_witness :
    transcribe_audio_run (fun _ => .body ("\x7b,\x7d".data)) =
      (.error (.retriesExhausted
        (.jsonParseFailed ("\x7b,\x7d".data) ("\x7b,\x7d".data))), 3, 2) ∧
    transcribe_audio_run (fun _ => .netErr ("timeout".data)) =
      (.error (.network ("timeout".data)), 1, 0) := by
  constructor
  · exact (c8_retry_policy (fun _ => .body ("\x7b,\x7d".data))).2.2.2.2.2
      ("\x7b,\x7d".data) ("\x7b,\x7d".data) ("\x7b,\x7d".data)
      (.jsonParseFailed ("\x7b,\x7d".data) ("\x7b,\x7d".data))
      (.jsonParseFailed ("\x7b,\x7d".data) ("\x7b,\x7d".data))
      (.jsonParseFailed ("\x7b,\x7d".data) ("\x7b,\x7d".data))
      rfl rfl rfl rfl rfl rfl
  · exact (c8_retry_policy (fun _ => .netErr ("timeout".data))).2.1
      ("timeout".data) rfl
